import Mathlib

/-!
Verification development for the `code-auth` activation-code service.

Strings and byte buffers from the TypeScript source are embedded as `List Nat`
(byte lists; every string in the protocol is handled byte-wise, and the only
byte the logic inspects is the ASCII colon 58, which is identical in the
string and byte views).  JavaScript numbers are embedded as `Option Int`
(`none` plays the role of `NaN`, which `parseInt` can produce and which every
comparison treats as false, exactly as in JS).
-/

set_option maxRecDepth 8000

/-- JavaScript number as it appears in this code base: an integer or `NaN`. -/
abbrev JNum := Option Int

/-- JS `a + b` (`NaN` absorbing). -/
def jadd : JNum → JNum → JNum
  | some a, some b => some (a + b)
  | _, _ => none

/-- JS `a - b` (`NaN` absorbing). -/
def jsub : JNum → JNum → JNum
  | some a, some b => some (a - b)
  | _, _ => none

/-- JS `a < b`; any comparison with `NaN` is false. -/
def jlt : JNum → JNum → Bool
  | some a, some b => decide (a < b)
  | _, _ => false

/-- JS `a <= b`; any comparison with `NaN` is false. -/
def jle : JNum → JNum → Bool
  | some a, some b => decide (a ≤ b)
  | _, _ => false

/-- JS `a >= b`. -/
def jge (a b : JNum) : Bool := jle b a

/-- Decimal digits, fuelled so that the kernel can evaluate it (the fuel is
irrelevant once it exceeds the number, see `natToStrAux_irrel`). -/
def natToStrAux : Nat → Nat → List Nat
  | 0, _ => []
  | fuel + 1, n =>
    if n < 10 then [48 + n]
    else natToStrAux fuel (n / 10) ++ [48 + n % 10]

/-- Decimal digits (ASCII) of a natural number, most significant first. -/
def natToStr (n : Nat) : List Nat := natToStrAux (n + 1) n

/-- JS decimal rendering of an integer (`(-5).toString() = "-5"`). -/
def intToStr (n : Int) : List Nat :=
  if n < 0 then 45 :: natToStr n.natAbs else natToStr n.natAbs

/-- JS `toString` on a number that may be `NaN` (`"NaN"` = `[78,97,78]`). -/
def jnumToStr : JNum → List Nat
  | some n => intToStr n
  | none => [78, 97, 78]

/-- ASCII decimal digit test. -/
def isDigitByte (c : Nat) : Bool := decide (48 ≤ c) && decide (c ≤ 57)

/-- Value of a digit string (used on the longest digit prefix). -/
def digitsToNat (l : List Nat) : Nat := l.foldl (fun a c => a * 10 + (c - 48)) 0

/-- Longest digit prefix, `none` when there is none (JS `NaN`). -/
def parseDigits (s : List Nat) : Option Nat :=
  let d := s.takeWhile isDigitByte
  if d = [] then none else some (digitsToNat d)

/-- JS `parseInt(s, 10)`: optional sign, then the longest digit prefix;
`NaN` (= `none`) when no digits follow. -/
def jsParseInt (s : List Nat) : JNum :=
  match s with
  | [] => none
  | c :: rest =>
    if c = 45 then (parseDigits rest).map (fun m => -(m : Int))
    else if c = 43 then (parseDigits rest).map (fun m => (m : Int))
    else (parseDigits (c :: rest)).map (fun m => (m : Int))

/-- JS `String.prototype.split` on a one-byte separator: the pieces between
occurrences of `sep`, keeping empty pieces (`"".split(":") = [""]`). -/
def splitOnByte (sep : Nat) : List Nat → List (List Nat)
  | [] => [[]]
  | c :: rest =>
    if c = sep then [] :: splitOnByte sep rest
    else
      match splitOnByte sep rest with
      | p :: ps => (c :: p) :: ps
      | [] => [[c]]

/-- Loop body of `Code.findNthColonFromEnd`: walk the buffer from its last
byte towards the front (here: along the reversed list, `i` being the index of
the current byte in the original buffer), counting colons; return the index at
which the count reaches `n`, and `-1` if it never does. -/
def findNthColonAux (n : Nat) : List Nat → Int → Nat → Int
  | [], _, _ => -1
  | c :: rest, i, colonCount =>
    if c = 58 then
      if colonCount + 1 = n then i
      else findNthColonAux n rest (i - 1) (colonCount + 1)
    else findNthColonAux n rest (i - 1) colonCount

/-- `Code.findNthColonFromEnd(data, n)` from `src/tool/code.ts`. -/
def findNthColonFromEnd (data : List Nat) (n : Nat) : Int :=
  findNthColonAux n data.reverse ((data.length : Int) - 1) 0

/-!
## External cryptographic / serialization primitives

`crypto.subtle` (SHA-256, AES-GCM, HKDF), `btoa`/`atob` (base64) and
`JSON.stringify`/`JSON.parse` are platform primitives, not code of this
repository; they are abstracted as the fields of a `Crypto` bundle, and the
properties the surrounding code relies on are collected in `Crypto.Sound`.
SHA-256 is idealized as collision-free (injective); its output is a lowercase
hex string, hence contains no colon byte.
-/

/-- The JSON-serializable activation record `ICodeInfo` of `src/tool/code.ts`. -/
structure CodeInfo where
  uuid : List Nat
  binding : List Nat
  expirationTime : JNum
  amount : JNum
deriving DecidableEq

/-- Abstracted platform primitives used by the activation-code logic. -/
structure Crypto where
  /-- `Hash.sha256`: hex digest of a byte string. -/
  sha256 : List Nat → List Nat
  /-- `crypto.subtle.encrypt` (AES-GCM): key, iv, plaintext ↦ ciphertext‖tag. -/
  subtleEnc : List Nat → List Nat → List Nat → List Nat
  /-- `crypto.subtle.decrypt` (AES-GCM): `none` = authentication failure. -/
  subtleDec : List Nat → List Nat → List Nat → Option (List Nat)
  /-- `Base64.fromBuffer`. -/
  b64enc : List Nat → List Nat
  /-- `Base64.toUint8Array`; `none` = `atob` threw. -/
  b64dec : List Nat → Option (List Nat)
  /-- The HKDF-SHA-256 derivation of `AES.getAesKey` (fixed salt
  `"license-system"`, fixed info `"activation-code"`), serverKey ↦ AES key. -/
  hkdf : List Nat → List Nat
  /-- `JSON.stringify` on an `ICodeInfo`. -/
  ciEnc : CodeInfo → List Nat
  /-- `JSON.parse` read back as an `ICodeInfo`; `none` = parse failure. -/
  ciDec : List Nat → Option CodeInfo

/-- The contracts of the platform primitives that the code relies on. -/
structure Crypto.Sound (C : Crypto) : Prop where
  sha256_inj : Function.Injective C.sha256
  sha256_no_colon : ∀ s, 58 ∉ C.sha256 s
  subtle_roundtrip : ∀ k iv pt, C.subtleDec k iv (C.subtleEnc k iv pt) = some pt
  subtle_len : ∀ k iv pt, (C.subtleEnc k iv pt).length = pt.length + 16
  b64_roundtrip : ∀ bs, C.b64dec (C.b64enc bs) = some bs
  ci_roundtrip : ∀ x, C.ciDec (C.ciEnc x) = some x
  ci_ne : ∀ x, C.ciEnc x ≠ []

/-- `AES.encrypt` from `src/tool/tool.ts`: random 12-byte IV prepended to the
GCM ciphertext (the IV is passed explicitly here). -/
def aesEncrypt (C : Crypto) (key iv pt : List Nat) : List Nat :=
  iv ++ C.subtleEnc key iv pt

/-- `AES.decrypt` from `src/tool/tool.ts`: reject payloads shorter than
IV(12)+tag(16), split off the IV, decrypt the rest. -/
def aesDecrypt (C : Crypto) (key data : List Nat) : Option (List Nat) :=
  if data.length < 28 then none
  else C.subtleDec key (data.take 12) (data.drop 12)

/-- The in-memory key cache of `AES` (`cachedAesKeyBuffer`/`cachedServerKey`). -/
structure AesCache where
  cachedAesKeyBuffer : Option (List Nat)
  cachedServerKey : Option (List Nat)
deriving DecidableEq

/-- The cache at process start: both fields `null`. -/
def initAesCache : AesCache := ⟨none, none⟩

/-- `AES.getAesKey` from `src/tool/tool.ts`: return the cached buffer when one
is present and was derived for the same server key, otherwise derive via HKDF
and overwrite the cache. -/
def getAesKey (C : Crypto) (cache : AesCache) (serverKey : List Nat) :
    List Nat × AesCache :=
  match cache.cachedAesKeyBuffer with
  | some buf =>
    if cache.cachedServerKey = some serverKey then (buf, cache)
    else (C.hkdf serverKey, ⟨some (C.hkdf serverKey), some serverKey⟩)
  | none => (C.hkdf serverKey, ⟨some (C.hkdf serverKey), some serverKey⟩)

/-- Run a sequence of `AES.getAesKey` calls (their argument server keys),
keeping only the cache state. -/
def runGetAesKey (C : Crypto) : AesCache → List (List Nat) → AesCache
  | cache, [] => cache
  | cache, k :: ks => runGetAesKey C (getAesKey C cache k).2 ks

/-!
## Store, advisory lock, and the `Code` operations of `src/tool/code.ts`
-/

/-- Key tag `Code.CODE_PREFIX = "C:"` (bytes of `"C:"`). -/
def keyTagC : List Nat := [67, 58]

/-- Key tag `Code.CODE_INFO_PREFIX = "CI:"` (bytes of `"CI:"`). -/
def keyTagCI : List Nat := [67, 73, 58]

/-- An advisory-lock event, recorded so that lock usage is observable:
`acq name ok` is an `kvLock.acquire` call and its result, `rel name` is a
`kvLock.release` call. -/
inductive LockEv
  | acq : List Nat → Bool → LockEv
  | rel : List Nat → LockEv
deriving DecidableEq

/-- The shared state visible to `Code.auth`/`Code.authAgain`: the key-value
store (newest binding first), the set of held advisory-lock names, and the
trace of lock operations performed so far. -/
structure St where
  store : List (List Nat × List Nat)
  locks : List (List Nat)
  log : List LockEv
deriving DecidableEq

/-- `kv.get`: the most recently written value under a key, if any. -/
def kvGet (store : List (List Nat × List Nat)) (k : List Nat) : Option (List Nat) :=
  (store.find? (fun p => p.1 == k)).map (fun p => p.2)

/-- `kv.put`: write a value under a key (TTLs are not modelled; expiry of a
record instead shows up as the key being absent in a later state). -/
def kvPut (store : List (List Nat × List Nat)) (k v : List Nat) :
    List (List Nat × List Nat) :=
  (k, v) :: store

/-- Modelled from the spec: `kvLock` is imported by `code.ts` from `./tool`
but its definition is not among the provided sources.  Spec §4.2:
`acquire(name) → bool` "succeeds (returns true) iff no held flag is currently
present for name; as a side effect writes the flag". -/
def lockAcquire (st : St) (name : List Nat) : Bool × St :=
  if name ∈ st.locks then
    (false, { st with log := st.log ++ [LockEv.acq name false] })
  else
    (true, { st with locks := name :: st.locks,
                     log := st.log ++ [LockEv.acq name true] })

/-- Modelled from the spec: `kvLock.release(name)` "deletes the flag
unconditionally" (spec §4.2). -/
def lockRelease (st : St) (name : List Nat) : St :=
  { st with locks := st.locks.filter (fun m => m ≠ name),
            log := st.log ++ [LockEv.rel name] }

/-- Modelled from the spec: the alphabet of `randomString` (spec §4.1 "random
alphanumeric salt"; the visible `generateRandomString` in `tool.ts` draws from
`'ABCDEFGHIJKLMNOPQRSTUVWXYZ0123456789'`): bytes `A`–`Z` and `0`–`9`. -/
def randomStringAlphabet : List Nat :=
  (List.range 26).map (fun i => 65 + i) ++ (List.range 10).map (fun i => 48 + i)

/-- `Code._generate` from `src/tool/code.ts`.  The call `serverT.now()` is the
explicit parameter `now` (modelled from the spec: `serverT` is imported from
`./tool` but absent from the sources; spec §4.1 "current server time"), the
`randomString(10)` salt is the parameter `randomS`, and the random AES-GCM IV
is the parameter `iv`. -/
def generate (C : Crypto) (now : Int) (randomS iv aesKey productId : List Nat)
    (expirationPeriod activationDuration amount : Int) : List Nat :=
  let s1 := randomS ++ 58 :: productId
  let s2 := 58 :: (intToStr (now + expirationPeriod) ++
            58 :: (intToStr activationDuration ++ 58 :: intToStr amount))
  let sh1 := C.sha256 s1
  let sh2 := C.sha256 s2
  let mixed := C.sha256 (sh1 ++ 58 :: sh2)
  let plaintext := s1 ++ 58 :: mixed
  let u1 := aesEncrypt C (C.hkdf aesKey) iv plaintext
  C.b64enc (u1 ++ s2)

/-- The part of `Code.verify` that runs after the buffer has been split into
the encrypted prefix `u1` and the plaintext suffix `u2` (source lines
203–251). -/
def verifyTail (C : Crypto) (now : Int) (aesKey productId u1 u2 : List Nat) :
    Bool × List Nat × JNum × JNum :=
  match aesDecrypt C (C.hkdf aesKey) u1 with
  | none => (false, [], some 0, some 0)
  | some decrypted =>
    -- `if (parts.length < 3) … ; const [randomS, prodId, mixed] = parts;`
    -- (a list has length ≥ 3 exactly when it destructures as below)
    match splitOnByte 58 decrypted with
    | randomS :: prodId :: mixed :: _ =>
      if prodId ≠ productId then (false, [], some 0, some 0)
      else
        -- `if (s2Parts.length < 4) … ; s2Parts[1], s2Parts[2], s2Parts[3]`
        match splitOnByte 58 u2 with
        | _ :: eStr :: dStr :: aStr :: _ =>
          let expirationTime := jsParseInt eStr
          let activationDuration := jsParseInt dStr
          let amount := jsParseInt aStr
          if jlt expirationTime (some now) then (false, [], some 0, some 0)
          else
            let sh1 := C.sha256 (randomS ++ 58 :: prodId)
            let sh2 := C.sha256 u2
            let recombined := C.sha256 (sh1 ++ 58 :: sh2)
            if recombined ≠ mixed then (false, [], some 0, some 0)
            else (true, productId, activationDuration, amount)
        | _ => (false, [], some 0, some 0)
    | _ => (false, [], some 0, some 0)

/-- `Code.verify` from `src/tool/code.ts` (the `serverT.now()` reading is the
parameter `now`).  Any exception (bad base64, failed decryption) is caught and
becomes `[false, "", 0, 0]`. -/
def verify (C : Crypto) (now : Int) (aesKey code productId : List Nat) :
    Bool × List Nat × JNum × JNum :=
  match C.b64dec code with
  | none => (false, [], some 0, some 0)
  | some codeU8 =>
    let splitIndex := findNthColonFromEnd codeU8 3
    if splitIndex = -1 then (false, [], some 0, some 0)
    else
      verifyTail C now aesKey productId
        (codeU8.take splitIndex.toNat) (codeU8.drop splitIndex.toNat)

/-- The usage counter read of `Code.auth`:
`const used = usedStr ? parseInt(usedStr, 10) : 0;` (a missing key and the
falsy empty string both give 0). -/
def usedOf (store : List (List Nat × List Nat)) (key : List Nat) : JNum :=
  match kvGet store key with
  | none => some 0
  | some v => if v = [] then some 0 else jsParseInt v

/-- The `try` block of `Code.auth` (source lines 272–310); `key` is the lock /
usage-counter key, `uuid` the `crypto.randomUUID()` value.  Only the store is
read and written here, so the body is phrased store → result × store. -/
def authBody (C : Crypto) (now : Int) (uuid : List Nat)
    (store : List (List Nat × List Nat))
    (key aesKey code productId binding : List Nat) :
    (Bool × List Nat × JNum) × List (List Nat × List Nat) :=
  match verify C now aesKey code productId with
  | (false, _, _, _) => ((false, [], some 0), store)
  | (true, _, duration, maxAmount) =>
    let used := usedOf store key
    if jge used maxAmount then ((false, [], some 0), store)
    else
      let newUsed := jadd used (some 1)
      let bindingHash := C.sha256 (binding ++ key)
      let expirationTime := jadd (some now) duration
      let codeInfo : CodeInfo := ⟨uuid, bindingHash, expirationTime, maxAmount⟩
      ((true, uuid, jsub maxAmount newUsed),
        kvPut (kvPut store key (jnumToStr newUsed)) (keyTagCI ++ uuid)
          (C.ciEnc codeInfo))

/-- `Code.auth` from `src/tool/code.ts`: take the advisory lock on
`"C:" + sha256(code)` (failure: immediate `[false, "", 0]`, no release), run
the body, release the lock on every exit path (`finally`). -/
def auth (C : Crypto) (now : Int) (uuid : List Nat) (st : St)
    (aesKey code productId binding : List Nat) :
    (Bool × List Nat × JNum) × St :=
  let key := keyTagC ++ C.sha256 code
  match lockAcquire st key with
  | (false, st1) => ((false, [], some 0), st1)
  | (true, st1) =>
    let r := authBody C now uuid st1.store key aesKey code productId binding
    (r.1, lockRelease { st1 with store := r.2 } key)

/-- The `try` block of `Code.authAgain` (source lines 333–364); its `catch`
(a failed `JSON.parse`) is the `ciDec … = none` branch.  The body never
writes, so it returns only the result tuple. -/
def authAgainBody (C : Crypto) (now : Int)
    (store : List (List Nat × List Nat))
    (key uuid binding : List Nat) : Bool × List Nat × JNum :=
  match kvGet store key with
  | none => (false, [], some 0)
  | some usedStr =>
    if usedStr = [] then (false, [], some 0)
    else
      match kvGet store (keyTagCI ++ uuid) with
      | none => (false, [], some 0)
      | some ciStr =>
        if ciStr = [] then (false, [], some 0)
        else
          match C.ciDec ciStr with
          | none => (false, [], some 0)
          | some codeInfo =>
            let bindingHash := C.sha256 (binding ++ key)
            if codeInfo.uuid ≠ uuid ∨ codeInfo.binding ≠ bindingHash ∨
                jle codeInfo.expirationTime (some now) = true then
              (false, [], some 0)
            else
              let used := jsParseInt usedStr
              let remaining := jsub codeInfo.amount used
              (true, jnumToStr codeInfo.expirationTime, remaining)

/-- `Code.authAgain` from `src/tool/code.ts`: same lock discipline as
`Code.auth`, then require an existing usage counter, load the activation
record by `uuid`, and check uuid / binding hash / expiry. -/
def authAgain (C : Crypto) (now : Int) (st : St)
    (code uuid binding : List Nat) : (Bool × List Nat × JNum) × St :=
  let key := keyTagC ++ C.sha256 code
  match lockAcquire st key with
  | (false, st1) => ((false, [], some 0), st1)
  | (true, st1) =>
    (authAgainBody C now st1.store key uuid binding, lockRelease st1 key)

/-- The activation record currently stored under `"CI:" + uuid`, if any. -/
def storedCi (C : Crypto) (st : St) (uuid : List Nat) : Option CodeInfo :=
  (kvGet st.store (keyTagCI ++ uuid)).bind C.ciDec

/-!
## A concrete sound instance of the platform primitives

Used to evaluate the development on closed inputs.  `toyHash` writes every
byte in decimal followed by the delimiter `120` (`'x'`): its output consists
of digit bytes and `120` only (never a colon), and it is injective because
`toyUnhash` decodes it.
-/

/-- Injective digest: each byte in decimal, each followed by `120`. -/
def toyHash (s : List Nat) : List Nat :=
  s.flatMap (fun n => natToStr n ++ [120])

/-- Fuelled decoder for `toyHash` (fuel bounds the recursion depth). -/
def toyUnhashF : Nat → List Nat → Option (List Nat)
  | _, [] => some []
  | 0, _ :: _ => none
  | fuel + 1, c :: s =>
    match (c :: s).dropWhile isDigitByte with
    | 120 :: rest =>
      (toyUnhashF fuel rest).map
        (fun l => digitsToNat ((c :: s).takeWhile isDigitByte) :: l)
    | _ => none

/-- Decoder for `toyHash`. -/
def toyUnhash (s : List Nat) : Option (List Nat) := toyUnhashF s.length s

/-- Inverse of `jnumToStr` (`"NaN"` is decoded back to `NaN`). -/
def jnumParse (s : List Nat) : Option JNum :=
  if s = [78, 97, 78] then some none
  else
    match jsParseInt s with
    | some n => some (some n)
    | none => none

/-- Concrete serializer for `CodeInfo`: the two byte-string fields are
length-prefixed (decimal length, then `121`, then the raw bytes), the two
numeric fields are rendered by `jnumToStr` and separated by `121` (`'y'`,
which occurs in no rendered number). -/
def toyCiEnc (x : CodeInfo) : List Nat :=
  natToStr x.uuid.length ++ 121 :: (x.uuid ++
    (natToStr x.binding.length ++ 121 :: (x.binding ++
      (jnumToStr x.expirationTime ++ 121 :: jnumToStr x.amount))))

/-- Concrete parser matching `toyCiEnc`. -/
def toyCiDec (s : List Nat) : Option CodeInfo :=
  match parseDigits s, s.dropWhile isDigitByte with
  | some lu, 121 :: r2 =>
    let u := r2.take lu
    let r3 := r2.drop lu
    match parseDigits r3, r3.dropWhile isDigitByte with
    | some lb, 121 :: r4 =>
      let b := r4.take lb
      let r5 := r4.drop lb
      match splitOnByte 121 r5 with
      | [e, a] =>
        match jnumParse e, jnumParse a with
        | some ej, some aj => some ⟨u, b, ej, aj⟩
        | _, _ => none
      | _ => none
    | _, _ => none
  | _, _ => none

/-- A concrete `Crypto` bundle satisfying `Crypto.Sound`. -/
def toyCrypto : Crypto where
  sha256 := toyHash
  subtleEnc := fun _ _ pt => pt ++ List.replicate 16 0
  subtleDec := fun _ _ ct =>
    if 16 ≤ ct.length then some (ct.take (ct.length - 16)) else none
  b64enc := fun bs => bs
  b64dec := fun bs => some bs
  hkdf := fun k => k
  ciEnc := toyCiEnc
  ciDec := toyCiDec

/-- Base-121 value of a digit string (all entries < 121), used to pack a
byte list injectively into one number. -/
def val121 (l : List Nat) : Nat := l.foldl (fun a c => a * 121 + c) 0

/-- Injective packing of a byte list into a single number: the base-121 value
of `1 :: toyHash s` (the leading 1 makes leading zeros significant). -/
def packNat (s : List Nat) : Nat := val121 (1 :: toyHash s)

/-- A second concrete `Crypto` bundle whose digest is one single (large)
number: closed computations over it stay shallow, which keeps kernel
evaluation of full `auth`/`authAgain` runs within the recursion limits. -/
def packCrypto : Crypto where
  sha256 := fun s => [packNat s + 59]
  subtleEnc := fun _ _ pt => pt ++ List.replicate 16 0
  subtleDec := fun _ _ ct =>
    if 16 ≤ ct.length then some (ct.take (ct.length - 16)) else none
  b64enc := fun bs => bs
  b64dec := fun bs => some bs
  hkdf := fun k => k
  ciEnc := toyCiEnc
  ciDec := toyCiDec

/-- An all-zero 12-byte AES-GCM IV. -/
def ivZ : List Nat := List.replicate 12 0

/-- A `randomString(10)` output: `"AAAAAAAAAA"`. -/
def sampleSalt : List Nat := List.replicate 10 65

/-- A concrete product id, `"P"`. -/
def samplePid : List Nat := [80]

/-- A concrete activation code: product `"P"`, generated at time 0 with
`expirationPeriod = 5`, `activationDuration = 7`, `maxUses = 2`. -/
def sampleCode : List Nat :=
  generate toyCrypto 0 sampleSalt ivZ [] samplePid 5 7 2

/-- The empty shared state. -/
def st0 : St := ⟨[], [], []⟩

/-- The state after one successful activation of `sampleCode` with binding
`[7]` and activation UUID `[1]`. -/
def sampleSt1 : St :=
  (auth toyCrypto 0 [1] st0 [] sampleCode samplePid [7]).2

/-- The sample activation code generated over `packCrypto`. -/
def packCode : List Nat :=
  generate packCrypto 0 sampleSalt ivZ [] samplePid 5 7 2

/-- The state after one successful activation of `packCode` with binding
`[7]` and activation UUID `[1]`. -/
def packSt1 : St :=
  (auth packCrypto 0 [1] st0 [] packCode samplePid [7]).2

/-- Product id `"b"` used by the product-isolation counterexample. -/
def c6B : List Nat := [98]

/-- The plaintext suffix of a code generated at time 0 with
`expirationPeriod = 5`, `activationDuration = 7`, `maxUses = 2`. -/
def c6S2 : List Nat := 58 :: (intToStr 5 ++ 58 :: (intToStr 7 ++ 58 :: intToStr 2))

/-- A product id crafted so that a code generated *for it* verifies against
the different product id `c6B`: it is `c6B`, a colon, and the integrity hash
that `Code.verify` will recompute for the truncated fields. -/
def c6A : List Nat :=
  c6B ++ 58 :: toyCrypto.sha256
    (toyCrypto.sha256 (sampleSalt ++ 58 :: c6B) ++ 58 :: toyCrypto.sha256 c6S2)

/-!
## Basic lemmas: decimal strings, splitting, colon scanning
-/

theorem natToStrAux_irrel (n : Nat) :
    ∀ f1 f2 : Nat, n < f1 → n < f2 → natToStrAux f1 n = natToStrAux f2 n := by
  induction n using Nat.strong_induction_on with
  | _ n ih =>
    intro f1 f2 h1 h2
    match f1, f2 with
    | fa + 1, fb + 1 =>
      simp only [natToStrAux]
      by_cases hn : n < 10
      · rw [if_pos hn, if_pos hn]
      · rw [if_neg hn, if_neg hn]
        have hd : n / 10 < n := Nat.div_lt_self (by omega) (by omega)
        rw [ih (n / 10) hd fa fb (by omega) (by omega)]

theorem natToStr_unfold (n : Nat) :
    natToStr n = if n < 10 then [48 + n]
      else natToStr (n / 10) ++ [48 + n % 10] := by
  show natToStrAux (n + 1) n = _
  rw [natToStrAux]
  by_cases hn : n < 10
  · rw [if_pos hn, if_pos hn]
  · rw [if_neg hn, if_neg hn]
    have hd : n / 10 < n := Nat.div_lt_self (by omega) (by omega)
    rw [natToStrAux_irrel (n / 10) n (n / 10 + 1) (by omega) (by omega)]
    rfl

theorem natToStr_ne_nil (n : Nat) : natToStr n ≠ [] := by
  rw [natToStr_unfold]
  split <;> simp

theorem natToStr_digits (n : Nat) : ∀ c ∈ natToStr n, isDigitByte c = true := by
  induction n using Nat.strong_induction_on with
  | _ n ih =>
    rw [natToStr_unfold]
    split
    · intro c hc
      simp only [List.mem_singleton] at hc
      subst hc
      simp only [isDigitByte, Bool.and_eq_true, decide_eq_true_eq]
      omega
    · intro c hc
      rcases List.mem_append.mp hc with h | h
      · exact ih (n / 10) (Nat.div_lt_self (by omega) (by omega)) c h
      · simp only [List.mem_singleton] at h
        subst h
        simp only [isDigitByte, Bool.and_eq_true, decide_eq_true_eq]
        have hm : n % 10 < 10 := Nat.mod_lt n (by omega)
        omega

theorem digitsToNat_append_one (l : List Nat) (c : Nat) :
    digitsToNat (l ++ [c]) = 10 * digitsToNat l + (c - 48) := by
  simp [digitsToNat, List.foldl_append]
  ring

theorem digitsToNat_natToStr (n : Nat) : digitsToNat (natToStr n) = n := by
  induction n using Nat.strong_induction_on with
  | _ n ih =>
    rw [natToStr_unfold]
    split
    · simp only [digitsToNat, List.foldl_cons, List.foldl_nil]
      omega
    · rw [digitsToNat_append_one, ih (n / 10) (Nat.div_lt_self (by omega) (by omega))]
      omega

theorem takeWhile_all {p : Nat → Bool} {l : List Nat}
    (h : ∀ c ∈ l, p c = true) : l.takeWhile p = l := by
  induction l with
  | nil => rfl
  | cons c t ih =>
    rw [List.takeWhile_cons, h c (by simp)]
    simp [ih (fun x hx => h x (by simp [hx]))]

theorem parseDigits_natToStr (n : Nat) : parseDigits (natToStr n) = some n := by
  unfold parseDigits
  rw [takeWhile_all (natToStr_digits n)]
  simp [natToStr_ne_nil n, digitsToNat_natToStr n]

theorem natToStr_mem_bound {n c : Nat} (h : c ∈ natToStr n) :
    48 ≤ c ∧ c ≤ 57 := by
  have := natToStr_digits n c h
  simp only [isDigitByte, Bool.and_eq_true, decide_eq_true_eq] at this
  exact this

theorem intToStr_mem_bound {n : Int} {c : Nat} (h : c ∈ intToStr n) :
    c = 45 ∨ (48 ≤ c ∧ c ≤ 57) := by
  unfold intToStr at h
  split at h
  · rcases List.mem_cons.mp h with h | h
    · exact Or.inl h
    · exact Or.inr (natToStr_mem_bound h)
  · exact Or.inr (natToStr_mem_bound h)

theorem intToStr_no_colon (n : Int) : 58 ∉ intToStr n := by
  intro h
  rcases intToStr_mem_bound h with h | h <;> omega

theorem jsParseInt_intToStr (n : Int) : jsParseInt (intToStr n) = some n := by
  unfold intToStr
  split
  · rename_i hneg
    rw [jsParseInt]
    simp [parseDigits_natToStr, Int.natCast_natAbs, abs_of_neg hneg]
  · rename_i hpos
    rcases h : natToStr n.natAbs with _ | ⟨c, t⟩
    · exact absurd h (natToStr_ne_nil _)
    · have hc : 48 ≤ c ∧ c ≤ 57 := natToStr_mem_bound (by rw [h]; simp)
      rw [jsParseInt]
      have h45 : ¬ c = 45 := by omega
      have h43 : ¬ c = 43 := by omega
      rw [if_neg h45, if_neg h43, ← h, parseDigits_natToStr]
      simp
      omega

theorem jnumToStr_ne_nil (j : JNum) : jnumToStr j ≠ [] := by
  cases j with
  | none => simp [jnumToStr]
  | some n =>
    simp only [jnumToStr, intToStr]
    split <;> simp [natToStr_ne_nil]

theorem splitOnByte_no_sep {sep : Nat} {a : List Nat} (h : sep ∉ a) :
    splitOnByte sep a = [a] := by
  induction a with
  | nil => rfl
  | cons c t ih =>
    have hc : ¬ c = sep := fun hc => h (by simp [hc])
    have ht : sep ∉ t := fun hm => h (List.mem_cons_of_mem _ hm)
    simp [splitOnByte, hc, ih ht]

theorem splitOnByte_append {sep : Nat} {a : List Nat} (b : List Nat) (h : sep ∉ a) :
    splitOnByte sep (a ++ sep :: b) = a :: splitOnByte sep b := by
  induction a with
  | nil => simp [splitOnByte]
  | cons c t ih =>
    have hc : ¬ c = sep := fun hc => h (by simp [hc])
    have ht : sep ∉ t := fun hm => h (List.mem_cons_of_mem _ hm)
    simp [splitOnByte, hc, ih ht]

theorem findNthColonAux_append (n : Nat) (l l' : List Nat) (i : Int) (cnt : Nat)
    (h : cnt + l.count 58 < n) :
    findNthColonAux n (l ++ l') i cnt =
      findNthColonAux n l' (i - l.length) (cnt + l.count 58) := by
  induction l generalizing i cnt with
  | nil => simp [findNthColonAux]
  | cons c t ih =>
    by_cases hc : c = 58
    · subst hc
      rw [List.count_cons_self] at h
      rw [List.cons_append, findNthColonAux, if_pos rfl, if_neg (by omega),
        ih (i - 1) (cnt + 1) (by omega), List.count_cons_self]
      congr 1
      · simp only [List.length_cons]
        push_cast
        ring
      · omega
    · have hcn : (c :: t).count 58 = t.count 58 :=
        List.count_cons_of_ne (fun he => hc he.symm) t
      rw [hcn] at h
      rw [List.cons_append, findNthColonAux, if_neg hc, ih (i - 1) cnt h, hcn]
      congr 1
      simp only [List.length_cons]
      push_cast
      ring

theorem findNthColonAux_notFound (n : Nat) (l : List Nat) (i : Int) (cnt : Nat)
    (h : cnt + l.count 58 < n) : findNthColonAux n l i cnt = -1 := by
  have := findNthColonAux_append n l [] i cnt h
  rw [List.append_nil] at this
  rw [this, findNthColonAux]

theorem findNthColonFromEnd_notFound (data : List Nat) (h : data.count 58 < 3) :
    findNthColonFromEnd data 3 = -1 := by
  unfold findNthColonFromEnd
  exact findNthColonAux_notFound 3 data.reverse _ 0
    (by rw [List.count_reverse]; omega)

/-- The split of `Code.verify`: when the buffer is an arbitrary prefix
followed by a colon and a tail holding exactly two more colons, the scan for
the 3rd colon from the end lands exactly on that leading colon, whatever
bytes (colons included) the prefix holds. -/
theorem findNthColonFromEnd_split (u1 tail : List Nat) (h : tail.count 58 = 2) :
    findNthColonFromEnd (u1 ++ 58 :: tail) 3 = u1.length := by
  unfold findNthColonFromEnd
  rw [List.reverse_append, List.reverse_cons, List.append_assoc]
  rw [findNthColonAux_append 3 tail.reverse _ _ 0
    (by rw [List.count_reverse]; omega)]
  rw [List.count_reverse, h]
  rw [List.singleton_append, findNthColonAux, if_pos rfl, if_pos rfl]
  simp only [List.length_append, List.length_cons, List.length_reverse]
  push_cast
  ring

theorem findNthColonAux_found (n : Nat) (l : List Nat) (i : Int) (cnt : Nat)
    (h1 : cnt < n) (h2 : n ≤ cnt + l.count 58) :
    ∃ k : Nat, k < l.length ∧ findNthColonAux n l i cnt = i - k ∧
      l.getD k 0 = 58 ∧ cnt + (l.take (k + 1)).count 58 = n := by
  induction l generalizing i cnt with
  | nil => simp at h2; omega
  | cons c t ih =>
    by_cases hc : c = 58
    · subst hc
      by_cases hcnt : cnt + 1 = n
      · refine ⟨0, by simp, ?_, rfl, ?_⟩
        · rw [findNthColonAux, if_pos rfl, if_pos hcnt]
          simp
        · simp [List.count_cons_self]
          omega
      · rw [List.count_cons_self] at h2
        obtain ⟨k, hk, heq, hg, hcount⟩ := ih (i - 1) (cnt + 1) (by omega) (by omega)
        refine ⟨k + 1, by simpa using Nat.succ_lt_succ hk, ?_, by simpa using hg, ?_⟩
        · rw [findNthColonAux, if_pos rfl, if_neg hcnt, heq]
          push_cast
          ring
        · rw [List.take_succ_cons, List.count_cons_self]
          omega
    · have hcn : ∀ s : List Nat, (c :: s).count 58 = s.count 58 :=
        fun s => List.count_cons_of_ne (fun he => hc he.symm) s
      rw [hcn] at h2
      obtain ⟨k, hk, heq, hg, hcount⟩ := ih (i - 1) cnt h1 h2
      refine ⟨k + 1, by simpa using Nat.succ_lt_succ hk, ?_, by simpa using hg, ?_⟩
      · rw [findNthColonAux, if_neg hc, heq]
        push_cast
        ring
      · rw [List.take_succ_cons, hcn]
        omega

theorem findNthColonFromEnd_found (data : List Nat) (h : 3 ≤ data.count 58) :
    ∃ j : Nat, j < data.length ∧ findNthColonFromEnd data 3 = (j : Int) ∧
      data.getD j 0 = 58 ∧ (data.drop j).count 58 = 3 := by
  obtain ⟨k, hk, heq, hg, hcount⟩ :=
    findNthColonAux_found 3 data.reverse ((data.length : Int) - 1) 0 (by omega)
      (by rw [List.count_reverse]; omega)
  rw [List.length_reverse] at hk
  refine ⟨data.length - 1 - k, by omega, ?_, ?_, ?_⟩
  · unfold findNthColonFromEnd
    rw [heq]
    omega
  · rw [List.getD_eq_getElem?_getD] at hg ⊢
    rw [List.getElem?_reverse (by simpa using hk)] at hg
    exact hg
  · have hdrop : data.drop (data.length - 1 - k) =
        (data.reverse.take (k + 1)).reverse := by
      rw [List.reverse_take]
      rw [List.reverse_reverse, List.length_reverse]
      congr 1
      omega
    rw [hdrop, List.count_reverse]
    simpa using hcount

/-!
## Soundness of the concrete primitives
-/

theorem takeWhile_append_block (p : Nat → Bool) (xs : List Nat) (y : Nat)
    (ys : List Nat) (hx : ∀ x ∈ xs, p x = true) (hy : p y = false) :
    (xs ++ y :: ys).takeWhile p = xs ∧ (xs ++ y :: ys).dropWhile p = y :: ys := by
  induction xs with
  | nil => simp [List.takeWhile_cons, List.dropWhile_cons, hy]
  | cons c t ih =>
    have hc := hx c (by simp)
    have ht := ih (fun x hxm => hx x (by simp [hxm]))
    simp [List.takeWhile_cons, List.dropWhile_cons, hc, ht.1, ht.2]

theorem toyHash_mem {s : List Nat} {c : Nat} (h : c ∈ toyHash s) :
    (48 ≤ c ∧ c ≤ 57) ∨ c = 120 := by
  unfold toyHash at h
  rw [List.mem_flatMap] at h
  obtain ⟨n, _, hn⟩ := h
  rcases List.mem_append.mp hn with h | h
  · exact Or.inl (natToStr_mem_bound h)
  · simp only [List.mem_singleton] at h
    exact Or.inr h

theorem toyHash_cons (a : Nat) (t : List Nat) :
    toyHash (a :: t) = natToStr a ++ 120 :: toyHash t := by
  unfold toyHash
  rw [List.flatMap_cons, List.append_assoc, List.singleton_append]

theorem toyUnhashF_step (f : Nat) (a : Nat) (X : List Nat) :
    toyUnhashF (f + 1) (natToStr a ++ 120 :: X) =
      (toyUnhashF f X).map (fun l => a :: l) := by
  obtain ⟨c, cs, hcs⟩ : ∃ c cs, natToStr a = c :: cs := by
    rcases h : natToStr a with _ | ⟨c, cs⟩
    · exact absurd h (natToStr_ne_nil a)
    · exact ⟨c, cs, rfl⟩
  have hblock := takeWhile_append_block isDigitByte (natToStr a)
    120 X (natToStr_digits a) (by simp [isDigitByte])
  rw [hcs] at hblock ⊢
  rw [List.cons_append, toyUnhashF, ← List.cons_append, hblock.1, hblock.2]
  rw [← hcs, digitsToNat_natToStr]

theorem toyUnhashF_toyHash (s : List Nat) :
    ∀ fuel, (toyHash s).length ≤ fuel → toyUnhashF fuel (toyHash s) = some s := by
  induction s with
  | nil =>
    intro fuel _
    show toyUnhashF fuel [] = some []
    cases fuel <;> rfl
  | cons a t ih =>
    intro fuel hf
    rw [toyHash_cons] at hf ⊢
    have hlen : 1 ≤ (natToStr a).length := by
      rcases h : natToStr a with _ | ⟨c, cs⟩
      · exact absurd h (natToStr_ne_nil a)
      · simp
    rw [List.length_append, List.length_cons] at hf
    cases fuel with
    | zero => omega
    | succ f =>
      rw [toyUnhashF_step, ih f (by omega)]
      rfl

theorem toyUnhash_toyHash (s : List Nat) : toyUnhash (toyHash s) = some s := by
  unfold toyUnhash
  exact toyUnhashF_toyHash s _ le_rfl

theorem toyHash_inj : Function.Injective toyHash := by
  intro a b h
  have ha := toyUnhash_toyHash a
  rw [h, toyUnhash_toyHash b] at ha
  exact (Option.some_inj.mp ha).symm

theorem intToStr_ne_nan (n : Int) : intToStr n ≠ [78, 97, 78] := by
  intro h
  have h78 : (78 : Nat) ∈ intToStr n := by rw [h]; simp
  rcases intToStr_mem_bound h78 with h' | h' <;> omega

theorem jnumParse_jnumToStr (j : JNum) : jnumParse (jnumToStr j) = some j := by
  cases j with
  | none => rfl
  | some n =>
    unfold jnumParse jnumToStr
    rw [if_neg (intToStr_ne_nan n)]
    rw [jsParseInt_intToStr]

theorem toyHash_no121 (s : List Nat) : 121 ∉ toyHash s := by
  intro h
  rcases toyHash_mem h with h' | h' <;> omega

theorem jnumToStr_no121 (j : JNum) : 121 ∉ jnumToStr j := by
  intro h
  cases j with
  | none => simp [jnumToStr] at h
  | some n =>
    rcases intToStr_mem_bound h with h' | h' <;> omega

theorem parseDigits_pre (L : Nat) (R : List Nat) :
    parseDigits (natToStr L ++ 121 :: R) = some L := by
  have hb := takeWhile_append_block isDigitByte (natToStr L) 121 R
    (natToStr_digits _) (by simp [isDigitByte])
  unfold parseDigits
  rw [hb.1]
  simp [natToStr_ne_nil, digitsToNat_natToStr]

theorem dropWhile_pre (L : Nat) (R : List Nat) :
    (natToStr L ++ 121 :: R).dropWhile isDigitByte = 121 :: R :=
  (takeWhile_append_block isDigitByte (natToStr L) 121 R
    (natToStr_digits _) (by simp [isDigitByte])).2

theorem toyCiDec_toyCiEnc (x : CodeInfo) : toyCiDec (toyCiEnc x) = some x := by
  simp only [toyCiEnc, toyCiDec, parseDigits_pre, dropWhile_pre,
    List.take_left, List.drop_left, splitOnByte_append, splitOnByte_no_sep,
    jnumToStr_no121, not_false_eq_true, jnumParse_jnumToStr]

theorem toyCiEnc_ne_nil (x : CodeInfo) : toyCiEnc x ≠ [] := by
  unfold toyCiEnc
  simp

theorem toyCrypto_sound : toyCrypto.Sound := by
  refine ⟨?_, ?_, ?_, ?_, ?_, ?_, ?_⟩
  · exact toyHash_inj
  · intro s h
    rcases toyHash_mem h with h' | h' <;> omega
  · intro k iv pt
    simp only [toyCrypto]
    rw [List.length_append, List.length_replicate, if_pos (by omega),
      Nat.add_sub_cancel, List.take_left]
  · intro k iv pt
    simp only [toyCrypto]
    rw [List.length_append, List.length_replicate]
  · intro bs
    rfl
  · exact toyCiDec_toyCiEnc
  · exact toyCiEnc_ne_nil

/-!
## The codec round trip
-/

theorem count_s2tail (x y z : Int) :
    (intToStr x ++ 58 :: (intToStr y ++ 58 :: intToStr z)).count 58 = 2 := by
  rw [List.count_append, List.count_cons_self, List.count_append,
    List.count_cons_self, List.count_eq_zero.mpr (intToStr_no_colon x),
    List.count_eq_zero.mpr (intToStr_no_colon y),
    List.count_eq_zero.mpr (intToStr_no_colon z)]

theorem splitOnByte_cons_self (sep : Nat) (r : List Nat) :
    splitOnByte sep (sep :: r) = [] :: splitOnByte sep r := by
  rw [splitOnByte, if_pos rfl]

theorem splitOnByte_s2 (x y z : Int) :
    splitOnByte 58 (58 :: (intToStr x ++ 58 :: (intToStr y ++ 58 :: intToStr z))) =
      [[], intToStr x, intToStr y, intToStr z] := by
  rw [splitOnByte_cons_self, splitOnByte_append _ (intToStr_no_colon x),
    splitOnByte_append _ (intToStr_no_colon y),
    splitOnByte_no_sep (intToStr_no_colon z)]

theorem aesDecrypt_aesEncrypt (C : Crypto) (hC : C.Sound) (key iv pt : List Nat)
    (hiv : iv.length = 12) :
    aesDecrypt C key (aesEncrypt C key iv pt) = some pt := by
  unfold aesEncrypt aesDecrypt
  rw [List.length_append, hC.subtle_len, hiv, if_neg (by omega)]
  rw [← hiv, List.take_left, List.drop_left, hC.subtle_roundtrip]

/-- What `Code.verify` returns on a code produced by `Code._generate`: the
product check first, then the strict expiry comparison; everything else
(split recovery, decryption, hash comparison) succeeds. -/
theorem verify_generate_eq (C : Crypto) (hC : C.Sound)
    (genT verifyT expP dur amt : Int) (randomS iv aesKey A B : List Nat)
    (hr : 58 ∉ randomS) (hp : 58 ∉ A) (hiv : iv.length = 12) :
    verify C verifyT aesKey (generate C genT randomS iv aesKey A expP dur amt) B =
      if A = B then
        (if genT + expP < verifyT then (false, [], some 0, some 0)
         else (true, B, some dur, some amt))
      else (false, [], some 0, some 0) := by
  simp only [generate, verify, hC.b64_roundtrip]
  rw [findNthColonFromEnd_split _ _ (count_s2tail _ _ _)]
  rw [if_neg (by omega)]
  rw [Int.toNat_natCast, List.take_left, List.drop_left]
  rw [List.append_assoc, List.cons_append]
  simp only [verifyTail, aesDecrypt_aesEncrypt C hC, hiv, splitOnByte_cons_self,
    splitOnByte_append, splitOnByte_no_sep, hr, hp, hC.sha256_no_colon,
    intToStr_no_colon, not_false_eq_true, jsParseInt_intToStr, jlt]
  by_cases hAB : A = B
  · subst hAB
    rw [if_neg (fun h => h rfl), if_pos rfl]
    by_cases hexp : genT + expP < verifyT
    · rw [if_pos (by simpa using hexp), if_pos hexp]
    · rw [if_neg (by simpa using hexp), if_neg hexp, if_neg (fun h => h rfl)]
  · rw [if_pos hAB, if_neg hAB]

/-!
## Store / lock / auth branch lemmas
-/

theorem kvGet_kvPut_self (store : List (List Nat × List Nat)) (k v : List Nat) :
    kvGet (kvPut store k v) k = some v := by
  simp [kvGet, kvPut]

theorem kvGet_kvPut_ne (store : List (List Nat × List Nat)) (k k' v : List Nat)
    (h : (k == k') = false) : kvGet (kvPut store k v) k' = kvGet store k' := by
  simp only [kvGet, kvPut, List.find?_cons, h]

theorem keyTagC_ne_keyTagCI (h u : List Nat) : keyTagC ++ h ≠ keyTagCI ++ u := by
  simp [keyTagC, keyTagCI]

theorem filter_ne_cons_self {L : List (List Nat)} {name : List Nat}
    (h : name ∉ L) :
    (name :: L).filter (fun m => m ≠ name) = L := by
  rw [List.filter_cons, if_neg (by simp)]
  refine List.filter_eq_self.mpr (fun a ha => ?_)
  simp only [ne_eq, decide_eq_true_eq]
  exact fun he => h (he ▸ ha)

theorem auth_locked (C : Crypto) (now : Int) (uuid : List Nat) (st : St)
    (aesKey code productId binding : List Nat)
    (h : keyTagC ++ C.sha256 code ∈ st.locks) :
    auth C now uuid st aesKey code productId binding =
      ((false, [], some 0),
        { st with log := st.log ++ [LockEv.acq (keyTagC ++ C.sha256 code) false] }) := by
  simp [auth, lockAcquire, h]

theorem auth_unlocked (C : Crypto) (now : Int) (uuid : List Nat) (st : St)
    (aesKey code productId binding : List Nat)
    (h : keyTagC ++ C.sha256 code ∉ st.locks) :
    auth C now uuid st aesKey code productId binding =
      ((authBody C now uuid st.store (keyTagC ++ C.sha256 code)
          aesKey code productId binding).1,
        { store := (authBody C now uuid st.store (keyTagC ++ C.sha256 code)
            aesKey code productId binding).2,
          locks := st.locks,
          log := st.log ++ [LockEv.acq (keyTagC ++ C.sha256 code) true,
            LockEv.rel (keyTagC ++ C.sha256 code)] }) := by
  simp [auth, lockAcquire, h, lockRelease, filter_ne_cons_self h]
  exact fun a ha he => h (he ▸ ha)

theorem authAgain_locked (C : Crypto) (now : Int) (st : St)
    (code uuid binding : List Nat)
    (h : keyTagC ++ C.sha256 code ∈ st.locks) :
    authAgain C now st code uuid binding =
      ((false, [], some 0),
        { st with log := st.log ++ [LockEv.acq (keyTagC ++ C.sha256 code) false] }) := by
  simp [authAgain, lockAcquire, h]

theorem authAgain_unlocked (C : Crypto) (now : Int) (st : St)
    (code uuid binding : List Nat)
    (h : keyTagC ++ C.sha256 code ∉ st.locks) :
    authAgain C now st code uuid binding =
      (authAgainBody C now st.store (keyTagC ++ C.sha256 code) uuid binding,
        { st with log := st.log ++ [LockEv.acq (keyTagC ++ C.sha256 code) true,
            LockEv.rel (keyTagC ++ C.sha256 code)] }) := by
  simp [authAgain, lockAcquire, h, lockRelease, filter_ne_cons_self h]
  exact fun a ha he => h (he ▸ ha)

theorem authBody_verify_fail (C : Crypto) (now : Int) (uuid : List Nat)
    (store : List (List Nat × List Nat))
    (key aesKey code productId binding : List Nat)
    (h : (verify C now aesKey code productId).1 = false) :
    authBody C now uuid store key aesKey code productId binding =
      ((false, [], some 0), store) := by
  unfold authBody
  rcases hv : verify C now aesKey code productId with ⟨b, p, d, m⟩
  rw [hv] at h
  cases b
  · rfl
  · simp at h

theorem authBody_exhausted (C : Crypto) (now : Int) (uuid : List Nat)
    (store : List (List Nat × List Nat))
    (key aesKey code productId binding p : List Nat) (d m : JNum)
    (hv : verify C now aesKey code productId = (true, p, d, m))
    (hge : jge (usedOf store key) m = true) :
    authBody C now uuid store key aesKey code productId binding =
      ((false, [], some 0), store) := by
  unfold authBody
  rw [hv]
  simp only [hge, if_true]

theorem authBody_succ (C : Crypto) (now : Int) (uuid : List Nat)
    (store : List (List Nat × List Nat))
    (key aesKey code productId binding p : List Nat) (d m : JNum)
    (hv : verify C now aesKey code productId = (true, p, d, m))
    (hge : jge (usedOf store key) m = false) :
    authBody C now uuid store key aesKey code productId binding =
      ((true, uuid, jsub m (jadd (usedOf store key) (some 1))),
        kvPut (kvPut store key (jnumToStr (jadd (usedOf store key) (some 1))))
          (keyTagCI ++ uuid)
          (C.ciEnc ⟨uuid, C.sha256 (binding ++ key), jadd (some now) d, m⟩)) := by
  unfold authBody
  rw [hv]
  simp only [hge, Bool.false_eq_true, if_false]

theorem authAgainBody_inv (C : Crypto) (now : Int)
    (store : List (List Nat × List Nat)) (key uuid binding : List Nat)
    (h : (authAgainBody C now store key uuid binding).1 = true) :
    ∃ usedStr ciStr codeInfo,
      kvGet store key = some usedStr ∧ usedStr ≠ [] ∧
      kvGet store (keyTagCI ++ uuid) = some ciStr ∧ ciStr ≠ [] ∧
      C.ciDec ciStr = some codeInfo ∧
      codeInfo.uuid = uuid ∧ codeInfo.binding = C.sha256 (binding ++ key) ∧
      jle codeInfo.expirationTime (some now) = false ∧
      authAgainBody C now store key uuid binding =
        (true, jnumToStr codeInfo.expirationTime,
          jsub codeInfo.amount (jsParseInt usedStr)) := by
  unfold authAgainBody at h
  split at h
  · simp at h
  · rename_i usedStr hu
    split at h
    · simp at h
    · rename_i hue
      split at h
      · simp at h
      · rename_i ciStr hci
        split at h
        · simp at h
        · rename_i hce
          split at h
          · simp at h
          · rename_i codeInfo hcd
            dsimp only [] at h
            split at h
            · simp at h
            · rename_i hgneg
              have hg := hgneg
              push_neg at hg
              refine ⟨usedStr, ciStr, codeInfo, hu, hue, hci, hce, hcd,
                hg.1, hg.2.1, by simpa using hg.2.2, ?_⟩
              simp only [authAgainBody, hu, hue, hci, hce, hcd]
              simp [hgneg]

theorem authBody_shape (C : Crypto) (now : Int) (uuid : List Nat)
    (store : List (List Nat × List Nat))
    (key aesKey code productId binding : List Nat) :
    (authBody C now uuid store key aesKey code productId binding).1.1 = true ∨
    (authBody C now uuid store key aesKey code productId binding).1 =
      (false, [], some 0) := by
  unfold authBody
  split
  · right; rfl
  · dsimp only []
    split
    · right; rfl
    · left; rfl

theorem authAgainBody_shape (C : Crypto) (now : Int)
    (store : List (List Nat × List Nat)) (key uuid binding : List Nat) :
    (authAgainBody C now store key uuid binding).1 = true ∨
    authAgainBody C now store key uuid binding = (false, [], some 0) := by
  unfold authAgainBody
  split
  · right; rfl
  · split
    · right; rfl
    · split
      · right; rfl
      · split
        · right; rfl
        · split
          · right; rfl
          · dsimp only []
            split
            · right; rfl
            · left; rfl

theorem getAesKey_inv (C : Crypto) (cache : AesCache) (k : List Nat)
    (hc : ∀ b k0, cache.cachedAesKeyBuffer = some b →
      cache.cachedServerKey = some k0 → b = C.hkdf k0) :
    ∀ b k0, (getAesKey C cache k).2.cachedAesKeyBuffer = some b →
      (getAesKey C cache k).2.cachedServerKey = some k0 → b = C.hkdf k0 := by
  intro b k0 hb hk
  unfold getAesKey at hb hk
  rcases hbuf : cache.cachedAesKeyBuffer with _ | b0
  · simp only [hbuf] at hb hk
    simp at hb hk
    rw [← hb, hk]
  · simp only [hbuf] at hb hk
    by_cases he : cache.cachedServerKey = some k
    · rw [if_pos he] at hb hk
      exact hc b k0 (hbuf ▸ hb) hk
    · rw [if_neg he] at hb hk
      simp at hb hk
      rw [← hb, hk]

/-- C10: after any prior sequence of `AES.getAesKey` calls (with this server
key or any others) starting from the empty cache, `AES.getAesKey` returns
exactly the fresh HKDF derivation of the requested secret: the single-entry
cache changes only whether the derivation is recomputed, never the observable
output. -/
theorem c10_getAesKey_pure (C : Crypto) (ops : List (List Nat))
    (serverKey : List Nat) :
    (getAesKey C (runGetAesKey C initAesCache ops) serverKey).1 =
      C.hkdf serverKey := by
  have hinv : ∀ b k, (runGetAesKey C initAesCache ops).cachedAesKeyBuffer = some b →
      (runGetAesKey C initAesCache ops).cachedServerKey = some k → b = C.hkdf k := by
    have hstep : ∀ (ks : List (List Nat)) (cache : AesCache),
        (∀ b k, cache.cachedAesKeyBuffer = some b →
          cache.cachedServerKey = some k → b = C.hkdf k) →
        ∀ b k, (runGetAesKey C cache ks).cachedAesKeyBuffer = some b →
          (runGetAesKey C cache ks).cachedServerKey = some k → b = C.hkdf k := by
      intro ks
      induction ks with
      | nil => intro cache hc; exact hc
      | cons k0 ks ih =>
        intro cache hc
        exact ih (getAesKey C cache k0).2 (getAesKey_inv C cache k0 hc)
    exact hstep ops initAesCache (by intro b k hb hk; simp [initAesCache] at hb)
  rcases hbuf : (runGetAesKey C initAesCache ops).cachedAesKeyBuffer with _ | b
  · simp [getAesKey, hbuf]
  · rcases hkey : (runGetAesKey C initAesCache ops).cachedServerKey with _ | k
    · simp [getAesKey, hbuf, hkey]
    · by_cases he : k = serverKey
      · subst he
        simp only [getAesKey, hbuf, hkey, if_pos rfl]
        exact hinv b k hbuf hkey
      · simp [getAesKey, hbuf, hkey, he]

/-- C3: on every input and state, each of `Code.auth` and `Code.authAgain`
either succeeds or returns exactly the tuple `(false, "", 0)`: lock
contention, failed verification, an exhausted or missing counter, a missing
or mismatched record, and the caught `JSON.parse` exception all produce that
one payload (the statement quantifies over every `Crypto` bundle, so no
branch can smuggle a different failure payload). -/
theorem c3_failure_shape (C : Crypto) (now now2 : Int) (uuid : List Nat)
    (st st2 : St)
    (aesKey code productId binding code2 uuidA binding2 : List Nat) :
    ((auth C now uuid st aesKey code productId binding).1.1 = true ∨
      (auth C now uuid st aesKey code productId binding).1 =
        (false, [], some 0)) ∧
    ((authAgain C now2 st2 code2 uuidA binding2).1.1 = true ∨
      (authAgain C now2 st2 code2 uuidA binding2).1 = (false, [], some 0)) := by
  constructor
  · by_cases hl : keyTagC ++ C.sha256 code ∈ st.locks
    · right
      rw [auth_locked _ _ _ _ _ _ _ _ hl]
    · rw [auth_unlocked _ _ _ _ _ _ _ _ hl]
      exact authBody_shape C now uuid st.store _ aesKey code productId binding
  · by_cases hl : keyTagC ++ C.sha256 code2 ∈ st2.locks
    · right
      rw [authAgain_locked _ _ _ _ _ _ hl]
    · rw [authAgain_unlocked _ _ _ _ _ _ hl]
      exact authAgainBody_shape C now2 st2.store _ uuidA binding2

/-- C7: `Code.verify` fails outright when the decoded buffer holds fewer than
3 colon bytes — for every `Crypto` bundle, so in particular whatever the
decryptor would have said; with at least 3 colons it proceeds on the split at
the position of the 3rd colon from the end: the byte there is a colon, the
suffix from it holds exactly 3 colons, the prefix is handed to decryption as
ciphertext and the suffix is the plaintext B component. -/
theorem c7_split (C : Crypto) (now : Int)
    (aesKey code productId bs : List Nat) (hb : C.b64dec code = some bs) :
    (bs.count 58 < 3 →
      verify C now aesKey code productId = (false, [], some 0, some 0)) ∧
    (3 ≤ bs.count 58 →
      ∃ j : Nat, findNthColonFromEnd bs 3 = (j : Int) ∧ bs.getD j 0 = 58 ∧
        (bs.drop j).count 58 = 3 ∧
        verify C now aesKey code productId =
          verifyTail C now aesKey productId (bs.take j) (bs.drop j)) := by
  constructor
  · intro h
    simp only [verify, hb]
    rw [findNthColonFromEnd_notFound bs h, if_pos rfl]
  · intro h
    obtain ⟨j, hjlt, heq, hg, hcnt⟩ := findNthColonFromEnd_found bs h
    refine ⟨j, heq, hg, hcnt, ?_⟩
    simp only [verify, hb]
    rw [heq, if_neg (by omega), Int.toNat_natCast]

/-- C8: both `Code.auth` and `Code.authAgain` perform, on every terminating
run, exactly one `acquire` on `lockKey = "C:" + sha256(code)`; when it
succeeds, exactly one `release` of the same key follows before the call
returns, on every exit path, and the held-lock set is restored; when it
fails, no `release` happens and the state is unchanged except for the logged
failed acquire. -/
theorem c8_lock_release (C : Crypto) (now now2 : Int) (uuid : List Nat)
    (st st2 : St)
    (aesKey code productId binding code2 uuidA binding2 : List Nat) :
    ((keyTagC ++ C.sha256 code ∈ st.locks →
        (auth C now uuid st aesKey code productId binding).2 =
          { st with log := st.log ++
              [LockEv.acq (keyTagC ++ C.sha256 code) false] }) ∧
      (keyTagC ++ C.sha256 code ∉ st.locks →
        (auth C now uuid st aesKey code productId binding).2.log =
          st.log ++ [LockEv.acq (keyTagC ++ C.sha256 code) true,
            LockEv.rel (keyTagC ++ C.sha256 code)] ∧
        (auth C now uuid st aesKey code productId binding).2.locks =
          st.locks)) ∧
    ((keyTagC ++ C.sha256 code2 ∈ st2.locks →
        (authAgain C now2 st2 code2 uuidA binding2).2 =
          { st2 with log := st2.log ++
              [LockEv.acq (keyTagC ++ C.sha256 code2) false] }) ∧
      (keyTagC ++ C.sha256 code2 ∉ st2.locks →
        (authAgain C now2 st2 code2 uuidA binding2).2.log =
          st2.log ++ [LockEv.acq (keyTagC ++ C.sha256 code2) true,
            LockEv.rel (keyTagC ++ C.sha256 code2)] ∧
        (authAgain C now2 st2 code2 uuidA binding2).2.locks =
          st2.locks)) := by
  refine ⟨⟨fun hl => ?_, fun hl => ?_⟩, ⟨fun hl => ?_, fun hl => ?_⟩⟩
  · rw [auth_locked _ _ _ _ _ _ _ _ hl]
  · rw [auth_unlocked _ _ _ _ _ _ _ _ hl]
    exact ⟨rfl, rfl⟩
  · rw [authAgain_locked _ _ _ _ _ _ hl]
  · rw [authAgain_unlocked _ _ _ _ _ _ hl]
    exact ⟨rfl, rfl⟩

/-- Closed instance of `c7_split`: a buffer with no colon at all fails. -/
theorem c7_split_witness :
    verify toyCrypto 0 [] [1, 2, 3] [] = (false, [], some 0, some 0) :=
  (c7_split toyCrypto 0 [] [1, 2, 3] [] [1, 2, 3] rfl).1 (by decide)

/-- Closed instance of `c8_lock_release`: a contended lock (left) and a free
lock (right), on the lock key `"C:" + sha256("")` = `[67, 58]`. -/
theorem c8_lock_release_witness :
    ((auth toyCrypto 0 [1] ⟨[], [[67, 58]], []⟩ [] [] [] []).2 =
        ⟨[], [[67, 58]], [LockEv.acq [67, 58] false]⟩) ∧
    ((auth toyCrypto 0 [1] st0 [] [] [] []).2.log =
        [LockEv.acq [67, 58] true, LockEv.rel [67, 58]] ∧
      (auth toyCrypto 0 [1] st0 [] [] [] []).2.locks = []) :=
  ⟨((c8_lock_release toyCrypto 0 0 [1] ⟨[], [[67, 58]], []⟩ st0
      [] [] [] [] [] [] []).1).1 (by decide),
   ((c8_lock_release toyCrypto 0 0 [1] st0 st0
      [] [] [] [] [] [] []).1).2 (by decide)⟩

theorem colon_not_in_alphabet : 58 ∉ randomStringAlphabet := by decide

/-- C1 (amended): the round trip holds for every product id that contains no
colon byte — every id the system itself issues is alphanumeric, hence
colon-free.  For a fresh code (salt drawn from the `randomString` alphabet,
random 12-byte IV) and a verification time no later than generation time plus
`expirationPeriod`, `Code.verify` recovers `(true, productId,
activationDuration, maxUses)`; the 3rd-colon-from-the-end split recovers the
plaintext suffix exactly even when the ciphertext prefix contains colons
(`verify_generate_eq` holds for every `subtleEnc`).  The unamended claim —
arbitrary product ids — is refuted by `c1_roundtrip_counterexample`. -/
theorem c1_roundtrip_amended (C : Crypto) (hC : C.Sound)
    (genT verifyT expP dur amt : Int) (randomS iv aesKey productId : List Nat)
    (hsalt : ∀ c ∈ randomS, c ∈ randomStringAlphabet)
    (hlen : randomS.length = 10)
    (hp : 58 ∉ productId) (hiv : iv.length = 12)
    (hexp : 0 < expP) (hamt : 1 ≤ amt) (ht : verifyT ≤ genT + expP) :
    verify C verifyT aesKey
        (generate C genT randomS iv aesKey productId expP dur amt) productId =
      (true, productId, some dur, some amt) := by
  have hr : 58 ∉ randomS := fun hm => colon_not_in_alphabet (hsalt 58 hm)
  rw [verify_generate_eq C hC genT verifyT expP dur amt randomS iv aesKey
    productId productId hr hp hiv, if_pos rfl, if_neg (by omega)]

/-- C1 counterexample: with sound primitives, a product id containing a colon
byte (`"a:b"`), a valid salt, `expirationPeriod = 5 > 0`, `maxUses = 2 ≥ 1`,
and verification at generation time, the round trip returns failure rather
than `(true, productId, …)`: the plaintext colon-split mistakes the id's
first segment for the whole id. -/
theorem c1_roundtrip_counterexample :
    toyCrypto.Sound ∧ (0 : Int) < 5 ∧ (1 : Int) ≤ 2 ∧ (0 : Int) ≤ 0 + 5 ∧
    verify toyCrypto 0 []
        (generate toyCrypto 0 sampleSalt ivZ [] [97, 58, 98] 5 7 2)
        [97, 58, 98] =
      (false, [], some 0, some 0) :=
  ⟨toyCrypto_sound, by decide, by decide, by decide, by decide⟩

/-- Closed instance of `c1_roundtrip_amended`. -/
theorem c1_roundtrip_witness :
    verify toyCrypto 0 []
        (generate toyCrypto 0 sampleSalt ivZ [] samplePid 5 7 2) samplePid =
      (true, samplePid, some 7, some 2) :=
  c1_roundtrip_amended toyCrypto toyCrypto_sound 0 0 5 7 2 sampleSalt ivZ []
    samplePid (by decide) (by decide) (by decide) (by decide) (by decide)
    (by decide) (by decide)

/-- C4: `Code.verify` of a generated code is rejected exactly when the
encoded absolute expiry `genT + expirationPeriod` is strictly less than the
verification time (so a code whose expiry equals the current time still
verifies), and a code generated with `expirationPeriod = -1` is rejected at
every verification time at or after its generation time. -/
theorem c4_expiry (C : Crypto) (hC : C.Sound)
    (genT expP dur amt : Int) (randomS iv aesKey productId : List Nat)
    (hsalt : ∀ c ∈ randomS, c ∈ randomStringAlphabet)
    (hp : 58 ∉ productId) (hiv : iv.length = 12) :
    (∀ verifyT : Int,
      verify C verifyT aesKey
          (generate C genT randomS iv aesKey productId expP dur amt)
          productId =
        if genT + expP < verifyT then (false, [], some 0, some 0)
        else (true, productId, some dur, some amt)) ∧
    (∀ verifyT : Int, genT ≤ verifyT →
      verify C verifyT aesKey
          (generate C genT randomS iv aesKey productId (-1) dur amt)
          productId =
        (false, [], some 0, some 0)) := by
  have hr : 58 ∉ randomS := fun hm => colon_not_in_alphabet (hsalt 58 hm)
  constructor
  · intro verifyT
    rw [verify_generate_eq C hC genT verifyT expP dur amt randomS iv aesKey
      productId productId hr hp hiv, if_pos rfl]
  · intro verifyT hle
    rw [verify_generate_eq C hC genT verifyT (-1) dur amt randomS iv aesKey
      productId productId hr hp hiv, if_pos rfl, if_pos (by omega)]

/-- Closed instance of `c4_expiry`: expiry 0+5; rejected at time 6, accepted
at the boundary time 5; the `expirationPeriod = -1` code is rejected at its
own generation time. -/
theorem c4_expiry_witness :
    (verify toyCrypto 6 []
        (generate toyCrypto 0 sampleSalt ivZ [] samplePid 5 7 2) samplePid =
      (false, [], some 0, some 0)) ∧
    (verify toyCrypto 5 []
        (generate toyCrypto 0 sampleSalt ivZ [] samplePid 5 7 2) samplePid =
      (true, samplePid, some 7, some 2)) ∧
    (verify toyCrypto 0 []
        (generate toyCrypto 0 sampleSalt ivZ [] samplePid (-1) 7 2) samplePid =
      (false, [], some 0, some 0)) := by
  have h := c4_expiry toyCrypto toyCrypto_sound 0 5 7 2 sampleSalt ivZ []
    samplePid (by decide) (by decide) (by decide)
  refine ⟨?_, ?_, h.2 0 (by decide)⟩
  · have h1 := h.1 6
    rwa [if_pos (by decide)] at h1
  · have h1 := h.1 5
    rwa [if_neg (by decide)] at h1

/-- A code generated *for* the crafted product id `B ++ ":" ++ H`, where `H`
is the integrity hash `Code.verify` recomputes after truncating at the second
colon, verifies successfully against the different product id `B`: the
colon-split of the decrypted plaintext hands `B` to the product check and `H`
to the hash check. -/
theorem verify_generate_colon_attack (C : Crypto) (hC : C.Sound)
    (genT verifyT expP dur amt : Int) (randomS iv aesKey B : List Nat)
    (hr : 58 ∉ randomS) (hb : 58 ∉ B) (hiv : iv.length = 12)
    (ht : ¬ (genT + expP < verifyT)) :
    verify C verifyT aesKey
        (generate C genT randomS iv aesKey
          (B ++ 58 :: C.sha256 (C.sha256 (randomS ++ 58 :: B) ++
            58 :: C.sha256 (58 :: (intToStr (genT + expP) ++
              58 :: (intToStr dur ++ 58 :: intToStr amt)))))
          expP dur amt) B =
      (true, B, some dur, some amt) := by
  simp only [generate, verify, hC.b64_roundtrip]
  rw [findNthColonFromEnd_split _ _ (count_s2tail _ _ _)]
  rw [if_neg (by omega)]
  rw [Int.toNat_natCast, List.take_left, List.drop_left]
  simp only [List.append_assoc, List.cons_append]
  simp only [verifyTail, aesDecrypt_aesEncrypt C hC, hiv, splitOnByte_cons_self,
    splitOnByte_append, splitOnByte_no_sep, hr, hb, hC.sha256_no_colon,
    intToStr_no_colon, not_false_eq_true, jsParseInt_intToStr, jlt]
  rw [if_neg (fun h => h rfl)]
  rw [if_neg (by simpa using ht)]
  rw [if_neg (fun h => h rfl)]

/-- C6 (amended: the id the code was generated for must contain no colon
byte — every id the system itself issues is alphanumeric; see the
counterexample for the unrestricted claim): a code generated for product id
`A` fails verification against any different expected id `B`, at every
verification time and regardless of the rest of the payload. -/
theorem c6_product_isolation_amended (C : Crypto) (hC : C.Sound)
    (genT verifyT expP dur amt : Int) (randomS iv aesKey A B : List Nat)
    (hsalt : ∀ c ∈ randomS, c ∈ randomStringAlphabet)
    (hp : 58 ∉ A) (hiv : iv.length = 12) (hab : A ≠ B) :
    verify C verifyT aesKey
        (generate C genT randomS iv aesKey A expP dur amt) B =
      (false, [], some 0, some 0) := by
  have hr : 58 ∉ randomS := fun hm => colon_not_in_alphabet (hsalt 58 hm)
  rw [verify_generate_eq C hC genT verifyT expP dur amt randomS iv aesKey
    A B hr hp hiv, if_neg hab]

/-- C6 counterexample: with sound primitives there are two distinct product
ids `c6A ≠ c6B` and a code generated for `c6A` (valid salt and IV) that
`Code.verify` *accepts* for `c6B`: `c6A` is `c6B`, a colon, and the
recomputable integrity hash, so the plaintext colon-split presents `c6B` to
the product check. -/
theorem c6_product_isolation_counterexample :
    toyCrypto.Sound ∧ c6A ≠ c6B ∧
    verify toyCrypto 0 []
        (generate toyCrypto 0 sampleSalt ivZ [] c6A 5 7 2) c6B =
      (true, c6B, some 7, some 2) :=
  ⟨toyCrypto_sound, by decide,
    verify_generate_colon_attack toyCrypto toyCrypto_sound 0 0 5 7 2 sampleSalt
      ivZ [] c6B (by decide) (by decide) (by decide) (by decide)⟩

/-- Closed instance of `c6_product_isolation_amended`: a code for `"P"`
checked against `"b"` fails. -/
theorem c6_product_isolation_witness :
    verify toyCrypto 0 []
        (generate toyCrypto 0 sampleSalt ivZ [] samplePid 5 7 2) c6B =
      (false, [], some 0, some 0) :=
  c6_product_isolation_amended toyCrypto toyCrypto_sound 0 0 5 7 2 sampleSalt
    ivZ [] samplePid c6B (by decide) (by decide) (by decide) (by decide)

theorem intToStr_natCast (u : Nat) : intToStr (u : Int) = natToStr u := by
  unfold intToStr
  rw [if_neg (by omega)]
  simp

theorem jsParseInt_natToStr (u : Nat) : jsParseInt (natToStr u) = some (u : Int) := by
  rw [← intToStr_natCast, jsParseInt_intToStr]

theorem jnumToStr_succ (u : Nat) :
    jnumToStr (jadd (some (u : Int)) (some 1)) = natToStr (u + 1) := by
  show jnumToStr (some ((u : Int) + 1)) = natToStr (u + 1)
  rw [show ((u : Int) + 1) = ((u + 1 : Nat) : Int) by push_cast; ring]
  exact intToStr_natCast (u + 1)

theorem usedOf_none (store : List (List Nat × List Nat)) (key : List Nat)
    (h : kvGet store key = none) : usedOf store key = some 0 := by
  simp [usedOf, h]

theorem usedOf_counter (store : List (List Nat × List Nat)) (key : List Nat)
    (u : Nat) (h : kvGet store key = some (natToStr u)) :
    usedOf store key = some (u : Int) := by
  simp only [usedOf, h]
  rw [if_neg (natToStr_ne_nil u), jsParseInt_natToStr]

/-- One `Code.auth` call, fully characterized, given the lock is free and the
verification outcome and counter value are known. -/
theorem auth_step (C : Crypto) (now : Int) (uuid : List Nat) (st : St)
    (aesKey code productId binding p : List Nat) (d m u : JNum)
    (hv : verify C now aesKey code productId = (true, p, d, m))
    (hl : keyTagC ++ C.sha256 code ∉ st.locks)
    (hu : usedOf st.store (keyTagC ++ C.sha256 code) = u) :
    (jge u m = true →
      (auth C now uuid st aesKey code productId binding).1 = (false, [], some 0) ∧
      (auth C now uuid st aesKey code productId binding).2.store = st.store ∧
      (auth C now uuid st aesKey code productId binding).2.locks = st.locks) ∧
    (jge u m = false →
      (auth C now uuid st aesKey code productId binding).1 =
        (true, uuid, jsub m (jadd u (some 1))) ∧
      (auth C now uuid st aesKey code productId binding).2.store =
        kvPut (kvPut st.store (keyTagC ++ C.sha256 code)
            (jnumToStr (jadd u (some 1))))
          (keyTagCI ++ uuid)
          (C.ciEnc ⟨uuid, C.sha256 (binding ++ (keyTagC ++ C.sha256 code)),
            jadd (some now) d, m⟩) ∧
      (auth C now uuid st aesKey code productId binding).2.locks = st.locks) := by
  constructor
  · intro hge
    rw [auth_unlocked _ _ _ _ _ _ _ _ hl,
      authBody_exhausted C now uuid st.store _ aesKey code productId binding
        p d m hv (by rw [hu]; exact hge)]
    exact ⟨rfl, rfl, rfl⟩
  · intro hge
    rw [auth_unlocked _ _ _ _ _ _ _ _ hl,
      authBody_succ C now uuid st.store _ aesKey code productId binding
        p d m hv (by rw [hu]; exact hge), hu]
    exact ⟨rfl, rfl, rfl⟩

theorem ciKey_beq_counterKey (C : Crypto) (uuid code : List Nat) :
    ((keyTagCI ++ uuid) == (keyTagC ++ C.sha256 code)) = false :=
  beq_eq_false_iff_ne.mpr fun he =>
    keyTagC_ne_keyTagCI (C.sha256 code) uuid he.symm

/-- C2: a usable code with `maxUses = 2` that verifies at each of three
sequential activation attempts yields success with remaining 1, success with
remaining 0, then failure; and in general (second conjunct) a successful
`Code.auth` call increments the stored decimal counter from `u` to `u + 1`
and returns `remaining = maxUses - (u + 1)`, while it fails whenever the
stored counter already satisfies `u ≥ maxUses`. -/
theorem c2_usage_limit (C : Crypto) (hC : C.Sound) :
    (∀ (now1 now2 now3 : Int) (u1 u2 u3 : List Nat) (st : St)
        (aesKey code productId b1 b2 b3 : List Nat) (d1 d2 d3 : JNum),
      verify C now1 aesKey code productId = (true, productId, d1, some 2) →
      verify C now2 aesKey code productId = (true, productId, d2, some 2) →
      verify C now3 aesKey code productId = (true, productId, d3, some 2) →
      keyTagC ++ C.sha256 code ∉ st.locks →
      kvGet st.store (keyTagC ++ C.sha256 code) = none →
      (auth C now1 u1 st aesKey code productId b1).1 = (true, u1, some 1) ∧
      (auth C now2 u2 (auth C now1 u1 st aesKey code productId b1).2
          aesKey code productId b2).1 = (true, u2, some 0) ∧
      (auth C now3 u3 (auth C now2 u2
            (auth C now1 u1 st aesKey code productId b1).2
            aesKey code productId b2).2
          aesKey code productId b3).1 = (false, [], some 0)) ∧
    (∀ (now : Int) (uuid : List Nat) (st : St)
        (aesKey code productId binding p : List Nat) (d m : JNum) (u : Nat),
      verify C now aesKey code productId = (true, p, d, m) →
      keyTagC ++ C.sha256 code ∉ st.locks →
      kvGet st.store (keyTagC ++ C.sha256 code) = some (natToStr u) →
      (jge (some (u : Int)) m = true →
        (auth C now uuid st aesKey code productId binding).1 =
          (false, [], some 0)) ∧
      (jge (some (u : Int)) m = false →
        (auth C now uuid st aesKey code productId binding).1 =
          (true, uuid, jsub m (some ((u : Int) + 1))) ∧
        kvGet (auth C now uuid st aesKey code productId binding).2.store
          (keyTagC ++ C.sha256 code) = some (natToStr (u + 1)))) := by
  constructor
  · intro now1 now2 now3 u1 u2 u3 st aesKey code productId b1 b2 b3 d1 d2 d3
      hv1 hv2 hv3 hl hc
    have h1 := (auth_step C now1 u1 st aesKey code productId b1 productId
      d1 (some 2) (some 0) hv1 hl (usedOf_none _ _ hc)).2 (by decide)
    have hst1 : kvGet (auth C now1 u1 st aesKey code productId b1).2.store
        (keyTagC ++ C.sha256 code) = some (natToStr 1) := by
      rw [h1.2.1, kvGet_kvPut_ne _ _ _ _ (ciKey_beq_counterKey C u1 code),
        kvGet_kvPut_self]
      rfl
    have hl1 : keyTagC ++ C.sha256 code ∉
        (auth C now1 u1 st aesKey code productId b1).2.locks := by
      rw [h1.2.2]; exact hl
    have h2 := (auth_step C now2 u2 _ aesKey code productId b2 productId
      d2 (some 2) (some 1) hv2 hl1 (usedOf_counter _ _ 1 hst1)).2 (by decide)
    have hst2 : kvGet (auth C now2 u2
          (auth C now1 u1 st aesKey code productId b1).2
          aesKey code productId b2).2.store
        (keyTagC ++ C.sha256 code) = some (natToStr 2) := by
      rw [h2.2.1, kvGet_kvPut_ne _ _ _ _ (ciKey_beq_counterKey C u2 code),
        kvGet_kvPut_self]
      rfl
    have hl2 : keyTagC ++ C.sha256 code ∉ (auth C now2 u2
        (auth C now1 u1 st aesKey code productId b1).2
        aesKey code productId b2).2.locks := by
      rw [h2.2.2]; exact hl1
    have h3 := (auth_step C now3 u3 _ aesKey code productId b3 productId
      d3 (some 2) (some 2) hv3 hl2 (usedOf_counter _ _ 2 hst2)).1 (by decide)
    refine ⟨?_, ?_, h3.1⟩
    · rw [h1.1]; rfl
    · rw [h2.1]; rfl
  · intro now uuid st aesKey code productId binding p d m u hv hl hc
    have hs := auth_step C now uuid st aesKey code productId binding p
      d m (some (u : Int)) hv hl (usedOf_counter _ _ u hc)
    refine ⟨fun hge => (hs.1 hge).1, fun hge => ?_⟩
    have h2 := hs.2 hge
    refine ⟨by rw [h2.1]; rfl, ?_⟩
    rw [h2.2.1, kvGet_kvPut_ne _ _ _ _ (ciKey_beq_counterKey C uuid code),
      kvGet_kvPut_self, jnumToStr_succ]

/-- Closed instance of `c2_usage_limit`: three sequential activations of the
concrete `maxUses = 2` code. -/
theorem c2_usage_limit_witness :
    (auth toyCrypto 0 [1] st0 [] sampleCode samplePid [7]).1 =
      (true, [1], some 1) ∧
    (auth toyCrypto 0 [2] (auth toyCrypto 0 [1] st0 [] sampleCode
        samplePid [7]).2 [] sampleCode samplePid [7]).1 = (true, [2], some 0) ∧
    (auth toyCrypto 0 [3] (auth toyCrypto 0 [2] (auth toyCrypto 0 [1] st0 []
        sampleCode samplePid [7]).2 [] sampleCode samplePid [7]).2 []
        sampleCode samplePid [7]).1 = (false, [], some 0) :=
  (c2_usage_limit toyCrypto toyCrypto_sound).1 0 0 0 [1] [2] [3] st0 []
    sampleCode samplePid [7] [7] [7] (some 7) (some 7) (some 7)
    (by decide) (by decide) (by decide) (by decide) (by decide)

theorem authBody_inv (C : Crypto) (now : Int) (uuid : List Nat)
    (store : List (List Nat × List Nat))
    (key aesKey code productId binding : List Nat)
    (h : (authBody C now uuid store key aesKey code productId binding).1.1 =
      true) :
    ∃ p d m, verify C now aesKey code productId = (true, p, d, m) ∧
      jge (usedOf store key) m = false := by
  unfold authBody at h
  split at h
  · simp at h
  · rename_i p duration maxAmount heq
    dsimp only [] at h
    split at h
    · simp at h
    · rename_i hge
      exact ⟨_, _, _, heq, by simpa using hge⟩

/-- C9: whenever `Code.authAgain` succeeds, the second element of its result
tuple — the position that `Code.auth` fills with the freshly generated
activation UUID, and that `buildAuthResult` in `routes/api.ts` serializes
identically for both calls — is the stored activation record's
`expirationTime` rendered as a decimal string by `toString()`, and the third
element is the record's `amount` minus the parsed stored usage counter. -/
theorem c9_authAgain_payload (C : Crypto) (now : Int) (st : St)
    (code uuidA binding : List Nat)
    (h : (authAgain C now st code uuidA binding).1.1 = true) :
    storedCi C st uuidA ≠ none ∧
    (authAgain C now st code uuidA binding).1 =
      (true,
        jnumToStr
          ((storedCi C st uuidA).getD ⟨[], [], some 0, some 0⟩).expirationTime,
        jsub ((storedCi C st uuidA).getD ⟨[], [], some 0, some 0⟩).amount
          (jsParseInt
            ((kvGet st.store (keyTagC ++ C.sha256 code)).getD []))) := by
  by_cases hl : keyTagC ++ C.sha256 code ∈ st.locks
  · rw [authAgain_locked _ _ _ _ _ _ hl] at h
    simp at h
  · rw [authAgain_unlocked _ _ _ _ _ _ hl] at h ⊢
    obtain ⟨usedStr, ciStr, codeInfo, hu, hue, hci, hce, hcd, hguuid, hgbind,
      hgexp, heq⟩ := authAgainBody_inv C now st.store _ uuidA binding h
    have hstored : storedCi C st uuidA = some codeInfo := by
      simp [storedCi, hci, hcd]
    refine ⟨by rw [hstored]; simp, ?_⟩
    show authAgainBody C now st.store (keyTagC ++ C.sha256 code) uuidA binding
      = _
    rw [heq, hstored, hu]
    rfl

/-- C5: (1) an activation record created by `Code.auth` under binding `b1`
never re-validates under a different binding `b2`: the recomputed SHA-256
binding hash differs from the stored one (SHA-256 idealized collision-free),
so `Code.authAgain` returns the uniform failure tuple; (2) `Code.authAgain`
succeeds only when the stored record's uuid equals the supplied one, the
recomputed binding hash equals the stored one, and the record's
`expirationTime` is strictly in the future (its `expirationTime ≤ now`
comparison is false). -/
theorem c5_binding (C : Crypto) (hC : C.Sound) :
    (∀ (now1 now2 : Int) (uuidN : List Nat) (st : St)
        (aesKey code productId b1 b2 : List Nat),
      b1 ≠ b2 →
      (auth C now1 uuidN st aesKey code productId b1).1.1 = true →
      (authAgain C now2 (auth C now1 uuidN st aesKey code productId b1).2
          code uuidN b2).1 = (false, [], some 0)) ∧
    (∀ (now : Int) (st : St) (code uuidA binding : List Nat),
      (authAgain C now st code uuidA binding).1.1 = true →
      ∃ codeInfo, storedCi C st uuidA = some codeInfo ∧
        codeInfo.uuid = uuidA ∧
        codeInfo.binding = C.sha256 (binding ++ (keyTagC ++ C.sha256 code)) ∧
        jle codeInfo.expirationTime (some now) = false) := by
  constructor
  · intro now1 now2 uuidN st aesKey code productId b1 b2 hb h
    by_cases hl : keyTagC ++ C.sha256 code ∈ st.locks
    · rw [auth_locked _ _ _ _ _ _ _ _ hl] at h
      simp at h
    · have hinv : (authBody C now1 uuidN st.store (keyTagC ++ C.sha256 code)
          aesKey code productId b1).1.1 = true := by
        rw [auth_unlocked _ _ _ _ _ _ _ _ hl] at h
        exact h
      obtain ⟨p, d, m, hv, hge⟩ := authBody_inv C now1 uuidN st.store _
        aesKey code productId b1 hinv
      have hs := (auth_step C now1 uuidN st aesKey code productId b1 p d m
        (usedOf st.store (keyTagC ++ C.sha256 code)) hv hl rfl).2 hge
      have hl2 : keyTagC ++ C.sha256 code ∉
          (auth C now1 uuidN st aesKey code productId b1).2.locks := by
        rw [hs.2.2]; exact hl
      rw [authAgain_unlocked _ _ _ _ _ _ hl2]
      show authAgainBody C now2
        (auth C now1 uuidN st aesKey code productId b1).2.store
        (keyTagC ++ C.sha256 code) uuidN b2 = (false, [], some 0)
      have hku : kvGet (auth C now1 uuidN st aesKey code productId b1).2.store
          (keyTagC ++ C.sha256 code) =
          some (jnumToStr (jadd (usedOf st.store (keyTagC ++ C.sha256 code))
            (some 1))) := by
        rw [hs.2.1, kvGet_kvPut_ne _ _ _ _ (ciKey_beq_counterKey C uuidN code),
          kvGet_kvPut_self]
      have hkci : kvGet (auth C now1 uuidN st aesKey code productId b1).2.store
          (keyTagCI ++ uuidN) =
          some (C.ciEnc ⟨uuidN,
            C.sha256 (b1 ++ (keyTagC ++ C.sha256 code)),
            jadd (some now1) d, m⟩) := by
        rw [hs.2.1, kvGet_kvPut_self]
      have hne : C.sha256 (b1 ++ (keyTagC ++ C.sha256 code)) ≠
          C.sha256 (b2 ++ (keyTagC ++ C.sha256 code)) := fun hcontra =>
        hb (List.append_left_injective _ (hC.sha256_inj hcontra))
      simp only [authAgainBody, hku, hkci,
        if_neg (jnumToStr_ne_nil _), if_neg (hC.ci_ne _), hC.ci_roundtrip]
      rw [if_pos (Or.inr (Or.inl hne))]
  · intro now st code uuidA binding h
    by_cases hl : keyTagC ++ C.sha256 code ∈ st.locks
    · rw [authAgain_locked _ _ _ _ _ _ hl] at h
      simp at h
    · rw [authAgain_unlocked _ _ _ _ _ _ hl] at h
      obtain ⟨usedStr, ciStr, codeInfo, hu, hue, hci, hce, hcd, hguuid, hgbind,
        hgexp, heq⟩ := authAgainBody_inv C now st.store _ uuidA binding h
      exact ⟨codeInfo, by simp [storedCi, hci, hcd], hguuid, hgbind, hgexp⟩

theorem val121_append_one (l : List Nat) (c : Nat) :
    val121 (l ++ [c]) = 121 * val121 l + c := by
  simp [val121, List.foldl_append]
  ring

theorem val121_one_le (l : List Nat) : 1 ≤ val121 (1 :: l) := by
  induction l using List.reverseRecOn with
  | nil => simp [val121]
  | append_singleton xs d ih =>
    rw [show (1 :: (xs ++ [d])) = (1 :: xs) ++ [d] from rfl, val121_append_one]
    omega

theorem val121_inj_led (l1 : List Nat) : ∀ l2 : List Nat,
    (∀ c ∈ l1, c < 121) → (∀ c ∈ l2, c < 121) →
    val121 (1 :: l1) = val121 (1 :: l2) → l1 = l2 := by
  induction l1 using List.reverseRecOn with
  | nil =>
    intro l2 _ h2 hv
    induction l2 using List.reverseRecOn with
    | nil => rfl
    | append_singleton ys e _ =>
      exfalso
      rw [show (1 :: (ys ++ [e])) = (1 :: ys) ++ [e] from rfl,
        val121_append_one, show val121 [1] = 1 from rfl] at hv
      have hB := val121_one_le ys
      omega
  | append_singleton xs d ih =>
    intro l2 h1 h2 hv
    induction l2 using List.reverseRecOn with
    | nil =>
      exfalso
      rw [show (1 :: (xs ++ [d])) = (1 :: xs) ++ [d] from rfl,
        val121_append_one, show val121 [1] = 1 from rfl] at hv
      have hA := val121_one_le xs
      omega
    | append_singleton ys e _ =>
      rw [show (1 :: (xs ++ [d])) = (1 :: xs) ++ [d] from rfl,
        show (1 :: (ys ++ [e])) = (1 :: ys) ++ [e] from rfl,
        val121_append_one, val121_append_one] at hv
      have hd : d < 121 := h1 d (by simp)
      have he : e < 121 := h2 e (by simp)
      have hA := val121_one_le xs
      have hB := val121_one_le ys
      have hde : d = e := by omega
      have hAB : val121 (1 :: xs) = val121 (1 :: ys) := by omega
      rw [hde, ih ys (fun c hc => h1 c (by simp [hc]))
        (fun c hc => h2 c (by simp [hc])) hAB]

theorem toyHash_lt121 (s : List Nat) : ∀ c ∈ toyHash s, c < 121 := by
  intro c hc
  rcases toyHash_mem hc with h | h <;> omega

theorem packNat_inj : Function.Injective packNat := by
  intro a b h
  exact toyHash_inj (val121_inj_led (toyHash a) (toyHash b)
    (toyHash_lt121 a) (toyHash_lt121 b) h)

theorem packCrypto_sound : packCrypto.Sound := by
  refine ⟨?_, ?_, ?_, ?_, ?_, ?_, ?_⟩
  · intro a b h
    simp only [packCrypto, List.cons.injEq, and_true] at h
    exact packNat_inj (by omega)
  · intro s h
    simp only [packCrypto, List.mem_singleton] at h
    omega
  · intro k iv pt
    simp only [packCrypto]
    rw [List.length_append, List.length_replicate, if_pos (by omega),
      Nat.add_sub_cancel, List.take_left]
  · intro k iv pt
    simp only [packCrypto]
    rw [List.length_append, List.length_replicate]
  · intro bs
    rfl
  · exact toyCiDec_toyCiEnc
  · exact toyCiEnc_ne_nil

/-- Closed instance of `c5_binding` (1): activate with binding `[7]`,
re-authenticate with binding `[8]`. -/
theorem c5_binding_witness :
    (authAgain packCrypto 0
        (auth packCrypto 0 [1] st0 [] packCode samplePid [7]).2
        packCode [1] [8]).1 = (false, [], some 0) :=
  (c5_binding packCrypto packCrypto_sound).1 0 0 [1] st0 [] packCode samplePid
    [7] [8] (by decide) (by decide)

set_option maxHeartbeats 4000000 in
/-- Closed instance of `c9_authAgain_payload`: the successful
re-authentication of the `packCode` activation. -/
theorem c9_authAgain_payload_witness :
    storedCi packCrypto packSt1 [1] ≠ none ∧
    (authAgain packCrypto 0 packSt1 packCode [1] [7]).1 =
      (true,
        jnumToStr ((storedCi packCrypto packSt1 [1]).getD
          ⟨[], [], some 0, some 0⟩).expirationTime,
        jsub ((storedCi packCrypto packSt1 [1]).getD
            ⟨[], [], some 0, some 0⟩).amount
          (jsParseInt ((kvGet packSt1.store
            (keyTagC ++ packCrypto.sha256 packCode)).getD []))) :=
  c9_authAgain_payload packCrypto 0 packSt1 packCode [1] [7] (by decide)
